import Mathlib

/-!
Shallow embedding of `src/prett6/project.py` (the prett6 property-binding
tree).  Python dictionaries are modelled as insertion-ordered association
lists over `String` keys (a Python dict never holds a duplicate key);
`dict.get` is `assocGet`, the single-key `dict.update` used by
`set_property` is `assocUpdate` (replace in place when the key is present,
keeping its position, append otherwise).  JSON values are the inductive
`JValue`.  The observer channel (`ChangedInterface`), which `project.py`
imports from a module not present in the sources, is modelled from the
spec as a synchronous in-order broadcast to a subscriber list.
-/

namespace Prett6

/-- JSON-style raw values stored in a backing dictionary. -/
inductive JValue where
  | jnull : JValue
  | jbool (b : Bool) : JValue
  | jnum (n : Int) : JValue
  | jstr (s : String) : JValue
  | jarr (elems : List JValue) : JValue
  | jobj (fields : List (String × JValue)) : JValue

/-- A Python dict, as an insertion-ordered association list. -/
abbrev Dict := List (String × JValue)

/-- `d.get(k)` — `None` (here `none`) when the key is absent. -/
def assocGet {α : Type} (d : List (String × α)) (k : String) : Option α :=
  (d.find? (fun p => p.1 == k)).map (fun p => p.2)

/-- `d.update(\x7bk: v\x7d)` on a Python dict: replace the value in place when
the key is present (keeping its position), append the pair otherwise. -/
def assocUpdate {α : Type} (d : List (String × α)) (k : String) (v : α) :
    List (String × α) :=
  match d with
  | [] => [(k, v)]
  | hd :: tl => if hd.1 == k then (k, v) :: tl else hd :: assocUpdate tl k v

theorem assocGet_update_self {α : Type} (k : String) (v : α) :
    ∀ d : List (String × α), assocGet (assocUpdate d k v) k = some v := by
  intro d
  induction d with
  | nil => simp [assocGet, assocUpdate, List.find?]
  | cons hd tl ih =>
    by_cases h : hd.1 = k
    · simp [assocGet, assocUpdate, h, List.find?]
    · have hb : (hd.1 == k) = false := by simpa using h
      simpa [assocGet, assocUpdate, hb, List.find?] using ih

theorem assocGet_update_other {α : Type} (k k' : String) (v : α) (h : k' ≠ k) :
    ∀ d : List (String × α), assocGet (assocUpdate d k v) k' = assocGet d k' := by
  intro d
  have hb : (k == k') = false := by simpa using fun e => h e.symm
  induction d with
  | nil => simp [assocGet, assocUpdate, List.find?, hb]
  | cons hd tl ih =>
    by_cases hh : hd.1 = k
    · have hb' : (hd.1 == k') = false := by simpa [hh] using fun e => h e.symm
      simp [assocGet, assocUpdate, hh, List.find?, hb, hb']
    · have hbh : (hd.1 == k) = false := by simpa using hh
      by_cases h2 : hd.1 = k'
      · simp [assocGet, assocUpdate, hbh, List.find?, h2, h]
      · have hb2 : (hd.1 == k') = false := by simpa using h2
        simpa [assocGet, assocUpdate, hbh, List.find?, hb2] using ih

/-! ### `AbstractProject` (document root)

The backing dictionary is the project's `value` (`DictValueModel`); the
functions below thread it explicitly.  `changed.emit(self.value)` is
recorded as the list of emitted payloads (each payload is the whole
dictionary, exactly as the source passes `self.value`). -/

/-- `AbstractProject.get_property`: `return self.value.get(name)`. -/
def get_property (st : Dict) (name : String) : Option JValue :=
  assocGet st name

/-- `AbstractProject.set_property`: `self.value.update(\x7bname: value\x7d)`
then `self.changed.emit(self.value)`.  Returns the new dictionary and the
emitted payloads. -/
def set_property (st : Dict) (name : String) (v : JValue) : Dict × List Dict :=
  let st' := assocUpdate st name v
  (st', [st'])

/-- `AbstractProject.set_value`: `self.value.clear()` then
`self.value.update(value)` then `self.changed.emit(self.value)`. -/
def set_value (_st : Dict) (v : Dict) : Dict × List Dict :=
  let st' := v.foldl (fun acc p => assocUpdate acc p.1 p.2) []
  (st', [st'])

/-! ### `AbstractProjectItem` (tree item with a parent)

For an item whose `parent` is not `None`, `get_value`/`set_value` delegate
to the parent's `get_property`/`set_property` under the item's `name`; the
parent's backing dictionary is the only state involved. -/

/-- `AbstractProjectItem.get_value` in the `parent is not None` branch:
`return self.parent.get_property(self.name)`. -/
def item_get_value (parentDict : Dict) (name : String) : Option JValue :=
  get_property parentDict name

/-- `AbstractProjectItem.set_value` in the `parent is not None` branch:
`self.parent.set_property(self.name, value)`. -/
def item_set_value (parentDict : Dict) (name : String) (v : JValue) :
    Dict × List Dict :=
  set_property parentDict name v

/-! ### Change notification channel -/

/-- Modelled from the spec: `ChangedInterface`/the signal class behind
`self.changed` is imported from a module not present in the sources.  Per
the spec, `emit(value)` synchronously invokes every subscriber in
subscription order with the payload.  Subscribers are identified by `Nat`
ids; the result is the delivery trace, in delivery order. -/
def emit (subs : List Nat) (payload : Dict) : List (Nat × Dict) :=
  subs.map (fun c => (c, payload))

/-- `set_property` together with the delivery of each emitted payload to the
subscriber list of the root's `changed` channel. -/
def set_property_notify (subs : List Nat) (st : Dict) (name : String)
    (v : JValue) : Dict × List (Nat × Dict) :=
  let r := set_property st name v
  (r.1, r.2.flatMap (emit subs))

/-! ### `SaveInterface.load` -/

/-- The three failure modes of `load`: `FileNotFoundError`, the two
`assert`s (`AssertionError`, the spec's InvalidFormat), and `json.load`
raising `ValueError` on unparseable content. -/
inductive LoadError where
  | notFound : LoadError
  | invalidFormat : LoadError
  | parseError : LoadError
deriving DecidableEq

/-- `SaveInterface.load(check_key, check_value)`.  The file system and the
JSON parse are inputs: `file = none` means `os.path.exists` is false;
`some (Except.error ())` means `json.load` raised `ValueError`;
`some (Except.ok j)` is the parsed value.  `assert isinstance(obj, dict)`
and `assert obj.get(check_key, None) == check_value` (with `check_value` a
`str` per the signature) guard `self.value = obj`, which runs
`AbstractProject.set_value`.  Returns the outcome, the new backing
dictionary and the emitted payloads. -/
def load (file : Option (Except Unit JValue)) (check_key check_value : String)
    (st : Dict) : Except LoadError Unit × Dict × List Dict :=
  match file with
  | none => (Except.error LoadError.notFound, st, [])
  | some (Except.error _) => (Except.error LoadError.parseError, st, [])
  | some (Except.ok j) =>
    match j with
    | JValue.jobj fields =>
      match assocGet fields check_key with
      | some (JValue.jstr s) =>
        if s = check_value then
          let r := set_value st fields
          (Except.ok (), r.1, r.2)
        else (Except.error LoadError.invalidFormat, st, [])
      | _ => (Except.error LoadError.invalidFormat, st, [])
    | _ => (Except.error LoadError.invalidFormat, st, [])

/-! ### `AbstractProject.__setattr__` -/

/-- The slice of an `AbstractProjectItem` that `__setattr__` touches: its
`name` (the lazily created default is the empty string, `self._create(str)`;
the setter stores the assigned value). -/
structure ProjItem where
  name : String
deriving DecidableEq

/-- `AbstractProject.__setattr__(key, value)` for an `AbstractProjectItem`
value: first `value.name = key`, then `super().__setattr__(key, value)`
binds the attribute.  The project's item-valued attributes are an
association list. -/
def project_setattr (attrs : List (String × ProjItem)) (key : String)
    (item : ProjItem) : List (String × ProjItem) :=
  let item' : ProjItem := { item with name := key }
  assocUpdate attrs key item'

/-! ### `Enum` -/

/-- One member of a `prett6.Enum`: its Python name and its associated
string value. -/
structure EnumMember where
  name : String
  value : String
deriving DecidableEq

/-- `Enum.get_key_by_value(value, default_value)`: the `for s in cls`
loop returns the first member whose `s.value == value`, the `else` clause
returns `default_value`. -/
def get_key_by_value (members : List EnumMember) (value : String)
    (default_value : Option EnumMember) : Option EnumMember :=
  match members.find? (fun s => s.value == value) with
  | some s => some s
  | none => default_value

/-- `EnumItem.EnumProperty.get_value`: `text = self.parent.get_string()`
(the raw stored string) and `return self.enum.get_key_by_value(text)` —
no `default_value` argument, so the default is `None`. -/
def enum_property_get_value (members : List EnumMember) (raw : String) :
    Option EnumMember :=
  get_key_by_value members raw none

/-- `Enum.__eq__(self, s)`: `return self.name == s`. -/
def enum_eq (m : EnumMember) (s : String) : Bool :=
  m.name == s

/-! ### `TimePointItem.TimePointProperty` -/

/-- `TimePointProperty.update`: `self.value = time.strftime(self.t_format)`.
`time.strftime` is a library call, passed in as `strftime`; the stored raw
string is the property's value slot (`none` when never written). -/
def tpp_update (t_format : String) (strftime : String → String)
    (_stored : Option String) : Option String :=
  some (strftime t_format)

/-- Modelled from the spec: the read path of the property (`StringProperty`
and `AbstractProperty`, imported from a module not present in the sources)
recomputes "now" per the configured pattern and persists it via the value
setter before returning it — i.e. a read runs `update` and then returns
the freshly stored string.  Returns (returned value, new stored value). -/
def tpp_read (t_format : String) (strftime : String → String)
    (stored : Option String) : Option String × Option String :=
  let stored' := tpp_update t_format strftime stored
  (stored', stored')

/-! ### Operation traces on the document root -/

/-- The two single-key operations of the document root; `set_value` (bulk
replacement) is deliberately excluded, matching the invariant's "until a
bulk `setValue`". -/
inductive RootOp where
  | setProp (k : String) (v : JValue) : RootOp
  | getProp (k : String) : RootOp

/-- Effect of one operation on the backing dictionary: `set_property`
upserts (its emissions do not change the dictionary), `get_property` is
read-only. -/
def applyOp (st : Dict) : RootOp → Dict
  | RootOp.setProp k v => (set_property st k v).1
  | RootOp.getProp _ => st

/-- Run a sequence of root operations left to right. -/
def runOps (st : Dict) : List RootOp → Dict
  | [] => st
  | op :: rest => runOps (applyOp st op) rest

/-- The value a key holds after a trace, given it held `v` before: the last
`setProp` on that key wins. -/
def lastWrite (k : String) (v : JValue) : List RootOp → JValue
  | [] => v
  | RootOp.setProp k' v' :: rest => lastWrite k (if k' = k then v' else v) rest
  | RootOp.getProp _ :: rest => lastWrite k v rest

theorem runOps_retains (k : String) :
    ∀ (ops : List RootOp) (st : Dict) (v : JValue),
      assocGet st k = some v →
      assocGet (runOps st ops) k = some (lastWrite k v ops) := by
  intro ops
  induction ops with
  | nil => intro st v h; simpa [runOps, lastWrite] using h
  | cons op rest ih =>
    intro st v h
    cases op with
    | setProp k' v' =>
      by_cases hk : k' = k
      · subst hk
        simpa [runOps, applyOp, lastWrite] using
          ih (assocUpdate st k' v') v' (assocGet_update_self k' v' st)
      · have hget : assocGet (assocUpdate st k' v') k = some v := by
          rw [assocGet_update_other k' k v' (fun e => hk e.symm) st]; exact h
        simpa [runOps, applyOp, lastWrite, hk] using
          ih (assocUpdate st k' v') v hget
    | getProp k' =>
      simpa [runOps, applyOp, lastWrite] using ih st v h

theorem assocGet_setfold_not_mem (k : String) :
    ∀ (d : Dict) (init : Dict), k ∉ d.map Prod.fst →
      assocGet (d.foldl (fun acc p => assocUpdate acc p.1 p.2) init) k =
        assocGet init k := by
  intro d
  induction d with
  | nil => intro init _; rfl
  | cons hd tl ih =>
    intro init h
    have h1 : k ≠ hd.1 ∧ k ∉ tl.map Prod.fst := by
      simpa [not_or] using h
    calc assocGet (List.foldl (fun acc p => assocUpdate acc p.1 p.2)
            (assocUpdate init hd.1 hd.2) tl) k
        = assocGet (assocUpdate init hd.1 hd.2) k := ih _ h1.2
      _ = assocGet init k := assocGet_update_other hd.1 k hd.2 h1.1 init

/-- Claim C1: for a tree item with a non-null parent and name `n`, after
`set_value v` the parent's backing dictionary maps `n` to `v`, so
`parent.get_property n` is `v` and a subsequent `get_value` on the item
is `v`. -/
theorem c1_delegation_identity (st : Dict) (n : String) (v : JValue) :
    get_property (item_set_value st n v).1 n = some v ∧
    item_get_value (item_set_value st n v).1 n = some v := by
  refine ⟨?_, ?_⟩ <;>
    simp [item_set_value, item_get_value, set_property, get_property,
      assocGet_update_self]

/-- Claim C2: `load` fails with `notFound` when the file does not exist,
with `invalidFormat` when the top-level JSON is an array, and with
`invalidFormat` when the parsed dictionary is missing the sentinel key or
maps it to anything other than the expected string value; in each case the
dictionary is unchanged and nothing is emitted. -/
theorem c2_load_validation (ck cv : String) (st : Dict) :
    load none ck cv st = (Except.error LoadError.notFound, st, []) ∧
    (∀ elems : List JValue,
      load (some (Except.ok (JValue.jarr elems))) ck cv st =
        (Except.error LoadError.invalidFormat, st, [])) ∧
    (∀ fields : List (String × JValue),
      assocGet fields ck ≠ some (JValue.jstr cv) →
      load (some (Except.ok (JValue.jobj fields))) ck cv st =
        (Except.error LoadError.invalidFormat, st, [])) := by
  refine ⟨rfl, fun _ => rfl, ?_⟩
  intro fields h
  rcases hm : assocGet fields ck with _ | j
  · simp [load, hm]
  · cases j with
    | jstr s =>
      have hne : ¬ s = cv := fun e => h (by rw [hm, e])
      simp [load, hm, hne]
    | jnull => simp [load, hm]
    | jbool b => simp [load, hm]
    | jnum nn => simp [load, hm]
    | jarr a => simp [load, hm]
    | jobj f => simp [load, hm]

theorem c2_witness :
    assocGet ([("other", JValue.jstr "x")] : Dict) "kind" ≠
      some (JValue.jstr "project") ∧
    load (some (Except.ok (JValue.jobj [("other", JValue.jstr "x")])))
        "kind" "project" [] =
      (Except.error LoadError.invalidFormat, [], []) := by
  have h : assocGet ([("other", JValue.jstr "x")] : Dict) "kind" ≠
      some (JValue.jstr "project") := by
    simp [assocGet, List.find?]
  exact ⟨h, (c2_load_validation "kind" "project" []).2.2 _ h⟩

/-- Claim C3: `set_value wholeDict` removes every previously stored key and
repopulates only from `wholeDict` (a key not occurring in `wholeDict` is
absent afterwards, whatever the previous dictionary held), emitting exactly
one change notification; in particular after `set_value` of `a ↦ 1` and
then of `b ↦ 2`, key `a` is absent and key `b` holds `2`. -/
theorem c3_bulk_replace_isolates :
    (∀ (st d : Dict) (k : String), k ∉ d.map Prod.fst →
      assocGet (set_value st d).1 k = none ∧ (set_value st d).2.length = 1) ∧
    (∀ st : Dict,
      assocGet (set_value (set_value st [("a", JValue.jnum 1)]).1
          [("b", JValue.jnum 2)]).1 "a" = none ∧
      assocGet (set_value (set_value st [("a", JValue.jnum 1)]).1
          [("b", JValue.jnum 2)]).1 "b" = some (JValue.jnum 2) ∧
      (set_value (set_value st [("a", JValue.jnum 1)]).1
          [("b", JValue.jnum 2)]).2.length = 1) := by
  constructor
  · intro st d k h
    exact ⟨assocGet_setfold_not_mem k d [] h, rfl⟩
  · intro st
    refine ⟨?_, ?_, rfl⟩ <;> rfl

theorem c3_witness :
    ("a" ∉ ([("b", JValue.jnum 2)] : Dict).map Prod.fst) ∧
    assocGet (set_value [("a", JValue.jnum 1)] [("b", JValue.jnum 2)]).1
      "a" = none ∧
    (set_value [("a", JValue.jnum 1)] [("b", JValue.jnum 2)]).2.length = 1 := by
  have h : "a" ∉ ([("b", JValue.jnum 2)] : Dict).map Prod.fst := by
    simp
  exact ⟨h, (c3_bulk_replace_isolates.1 [("a", JValue.jnum 1)] _ "a" h).1,
    (c3_bulk_replace_isolates.1 [("a", JValue.jnum 1)] _ "a" h).2⟩

/-- Claim C4: `set_property name v` on the document root upserts the key and
then emits exactly one notification whose payload is the entire updated
dictionary; the delivery trace is one invocation per subscriber, in
subscription order, each carrying the whole updated dictionary. -/
theorem c4_notification_fanout (subs : List Nat) (st : Dict) (n : String)
    (v : JValue) :
    (set_property_notify subs st n v).1 = (set_property st n v).1 ∧
    assocGet (set_property_notify subs st n v).1 n = some v ∧
    (set_property_notify subs st n v).2 =
      subs.map (fun c => (c, (set_property_notify subs st n v).1)) := by
  refine ⟨rfl, ?_, ?_⟩
  · simpa [set_property_notify, set_property] using assocGet_update_self n v st
  · simp [set_property_notify, set_property, emit]

/-- Claim C5: assigning a tree item as a named attribute of the document
root sets the item's `name` to the attribute name before the binding
completes: the bound attribute holds the item with `name` equal to the
attribute key. -/
theorem c5_setattr_sets_name (attrs : List (String × ProjItem)) (key : String)
    (item : ProjItem) :
    assocGet (project_setattr attrs key item) key =
      some { item with name := key } ∧
    ProjItem.name { item with name := key } = key :=
  ⟨assocGet_update_self key _ attrs, rfl⟩

/-- Claim C6: `get_key_by_value` on a raw string matching no member's
associated string returns the caller-supplied default (never raises); on a
raw string matching some member's associated string it returns such a
member; and the enum item's `get_value` is exactly this lookup with
default `None`. -/
theorem c6_enum_fallback :
    (∀ (members : List EnumMember) (raw : String) (d : Option EnumMember),
      raw ∉ members.map EnumMember.value → get_key_by_value members raw d = d) ∧
    (∀ (members : List EnumMember) (raw : String) (d : Option EnumMember),
      raw ∈ members.map EnumMember.value →
      ∃ m, get_key_by_value members raw d = some m ∧ m.value = raw) ∧
    (∀ (members : List EnumMember) (raw : String),
      enum_property_get_value members raw = get_key_by_value members raw none) := by
  refine ⟨?_, ?_, fun _ _ => rfl⟩
  · intro members raw d h
    have hnone : members.find? (fun s => s.value == raw) = none := by
      rw [List.find?_eq_none]
      intro x hx
      simp only [beq_iff_eq]
      exact fun e => h (e ▸ List.mem_map_of_mem EnumMember.value hx)
    simp [get_key_by_value, hnone]
  · intro members raw d h
    obtain ⟨x, hx, hval⟩ := List.mem_map.mp h
    have hsome : (members.find? (fun s => s.value == raw)).isSome := by
      rw [List.find?_isSome]
      exact ⟨x, hx, by simp [hval]⟩
    obtain ⟨m, hm⟩ := Option.isSome_iff_exists.mp hsome
    refine ⟨m, by simp [get_key_by_value, hm], ?_⟩
    simpa using List.find?_some hm

theorem c6_witness :
    ("z" ∉ ([⟨"A", "a"⟩, ⟨"B", "b"⟩] : List EnumMember).map EnumMember.value) ∧
    get_key_by_value [⟨"A", "a"⟩, ⟨"B", "b"⟩] "z" (some ⟨"D", "d"⟩) =
      some ⟨"D", "d"⟩ ∧
    (∃ m, get_key_by_value [⟨"A", "a"⟩, ⟨"B", "b"⟩] "b" none = some m ∧
      m.value = "b") := by
  have h1 : "z" ∉ ([⟨"A", "a"⟩, ⟨"B", "b"⟩] : List EnumMember).map
      EnumMember.value := by simp
  have h2 : "b" ∈ ([⟨"A", "a"⟩, ⟨"B", "b"⟩] : List EnumMember).map
      EnumMember.value := by simp
  exact ⟨h1, c6_enum_fallback.1 _ _ _ h1, c6_enum_fallback.2.1 _ _ _ h2⟩

/-- Claim C7: reading the timestamp property recomputes the current time
formatted per the configured pattern and persists it before returning it:
the returned string is the freshly formatted now, and the stored raw string
is mutated to that same value (equal to what `update` stores). -/
theorem c7_timestamp_read (t_format : String) (strftime : String → String)
    (stored : Option String) :
    (tpp_read t_format strftime stored).1 = some (strftime t_format) ∧
    (tpp_read t_format strftime stored).2 = some (strftime t_format) ∧
    (tpp_read t_format strftime stored).2 =
      tpp_update t_format strftime stored :=
  ⟨rfl, rfl, rfl⟩

/-- Claim C8: a key written by `set_property` stays present across any
further sequence of `set_property`/`get_property` operations, holding the
most recently written value (no root operation other than the excluded bulk
`set_value` ever removes a key). -/
theorem c8_key_retention (st : Dict) (k : String) (v : JValue)
    (ops : List RootOp) :
    assocGet (runOps (set_property st k v).1 ops) k =
      some (lastWrite k v ops) :=
  runOps_retains k ops (set_property st k v).1 v (assocGet_update_self k v st)

/-- Claim C9: when `load` fails — missing file, unparseable content,
non-dictionary top level, or sentinel mismatch — the backing dictionary is
left unchanged and no change notification is emitted. -/
theorem c9_load_atomic_on_failure (file : Option (Except Unit JValue))
    (ck cv : String) (st : Dict) (e : LoadError)
    (h : (load file ck cv st).1 = Except.error e) :
    (load file ck cv st).2.1 = st ∧ (load file ck cv st).2.2 = [] := by
  rcases file with _ | f
  · simp [load]
  · rcases f with u | j
    · simp [load]
    · cases j with
      | jobj fields =>
        rcases hm : assocGet fields ck with _ | jv
        · simp [load, hm]
        · cases jv with
          | jstr s =>
            by_cases hs : s = cv
            · exact absurd h (by simp [load, hm, hs])
            · simp [load, hm, hs]
          | jnull => simp [load, hm]
          | jbool b => simp [load, hm]
          | jnum nn => simp [load, hm]
          | jarr a => simp [load, hm]
          | jobj f2 => simp [load, hm]
      | jnull => simp [load]
      | jbool b => simp [load]
      | jnum nn => simp [load]
      | jstr s => simp [load]
      | jarr a => simp [load]

theorem c9_witness :
    (load none "kind" "project" [("x", JValue.jnum 1)]).1 =
      Except.error LoadError.notFound ∧
    (load none "kind" "project" [("x", JValue.jnum 1)]).2.1 =
      [("x", JValue.jnum 1)] ∧
    (load none "kind" "project" [("x", JValue.jnum 1)]).2.2 = [] := by
  have h : (load none "kind" "project" [("x", JValue.jnum 1)]).1 =
      Except.error LoadError.notFound := rfl
  exact ⟨h, (c9_load_atomic_on_failure none "kind" "project" _ _ h).1,
    (c9_load_atomic_on_failure none "kind" "project" _ _ h).2⟩

/-- Claim C10: `Enum.__eq__` compares the member's name, not its associated
string value: `enum_eq m s` holds exactly when `m.name = s`, and a member
whose name differs from its associated value compares unequal to that
associated value. -/
theorem c10_enum_eq_compares_name :
    (∀ (m : EnumMember) (s : String), enum_eq m s = true ↔ m.name = s) ∧
    (∀ m : EnumMember, m.name ≠ m.value → enum_eq m m.value = false) := by
  constructor
  · intro m s; simp [enum_eq]
  · intro m h; simpa [enum_eq] using h

theorem c10_witness :
    enum_eq ⟨"undefined", "?"⟩ "undefined" = true ∧
    (("undefined" : String) ≠ "?") ∧
    enum_eq ⟨"undefined", "?"⟩ "?" = false := by
  refine ⟨(c10_enum_eq_compares_name.1 ⟨"undefined", "?"⟩ "undefined").mpr rfl,
    by decide, c10_enum_eq_compares_name.2 ⟨"undefined", "?"⟩ (by decide)⟩

end Prett6
